import Mathlib

/-!
Shallow embedding of `src/i.hyper.rgb.py` (GRASS module `i.hyper.rgb`:
RGB/CMYK composites from hyperspectral imagery).

Modelling conventions:
* Python floats (wavelengths) are embedded as `ℚ`; the module only subtracts,
  takes absolute values and compares them.
* A Python `dict` is embedded as an association list in insertion order with
  unique keys: `dictInsert` models `d[k] = v` (update in place if the key is
  present, else append), `dictGet` models `d[k]`, and the list order models
  Python dict iteration order (insertion order).
* Calls into the external raster store (`g.copy`, `r.rescale`, `i.group`) and
  `gs.warning` are modelled as an emitted trace of `Cmd` events; info-level
  logging (`gs.message`, `gs.verbose`) is glue and is not traced.
* The per-band r.support metadata query is external input: each bands
  metadata is a list of text lines (`meta : ℕ → List String`).  The builtin
  `float(...)` string parser is a language primitive, passed in as
  `pf : String → Option ℚ` (`none` models a `ValueError`, which the
  surrounding `try/except` turns into skipping the band).
* Python's `min(keys, key=...)` keeps the first strict minimizer in iteration
  order and raises on an empty sequence; `argminAbs` mirrors this with a
  `foldl` over the key list, returning `none` on the empty list.
-/

namespace IHyperRgb

/-- Events issued against the external raster store plus warnings, in order.
`copy` models `g.copy`, `rescale` models `r.rescale ... to=0,255`,
`group` models `i.group`, `warning` models `gs.warning`. -/
inductive Cmd where
  | copy (src dst : String)
  | rescale (m : String)
  | group (name : String) (members : List String)
  | warning (text : String)
deriving DecidableEq, Repr

/-- A wavelength catalog: Python dict from wavelength (float, as `ℚ`) to
1-based band index, as an insertion-ordered association list with unique
keys. -/
abbrev Catalog := List (ℚ × ℕ)

/-- Python dict assignment `d[k] = v`: overwrite in place if `k` is already a
key (keeping its position in iteration order), else append at the end. -/
def dictInsert : Catalog → ℚ → ℕ → Catalog
  | [], k, v => [(k, v)]
  | (k₀, v₀) :: rest, k, v =>
    if k₀ = k then (k, v) :: rest else (k₀, v₀) :: dictInsert rest k v

/-- Python dict access `d[k]` (as an `Option`; on a dict it is called only
with present keys). -/
def dictGet : Catalog → ℚ → Option ℕ
  | [], _ => none
  | (k₀, v) :: rest, k => if k₀ = k then some v else dictGet rest k

/-- Python substring test `pat in s` on strings. -/
def strContains (s pat : String) : Bool :=
  decide (pat.data <:+: s.data)

/-- Python `s.startswith(pre)` on strings. -/
def strStartsWith (s pre : String) : Bool :=
  decide (pre.data <+: s.data)

/-- Python `s.lower()` (character-wise lowercasing). -/
def pyLower (s : String) : String :=
  ⟨s.data.map Char.toLower⟩

/-- Python `s.split(sep)` for a one-character separator: split at every
occurrence of the separator, keeping empty parts. -/
def pySplit (sep : Char) : List Char → List (List Char)
  | [] => [[]]
  | c :: rest =>
    match pySplit sep rest with
    | [] => if c = sep then [[], [c]] else [[c]]
    | h :: t => if c = sep then [] :: h :: t else (c :: h) :: t

/-- Python `s.strip()`: drop leading and trailing whitespace. -/
def pyStrip (s : String) : String :=
  ⟨((s.data.dropWhile Char.isWhitespace).reverse.dropWhile Char.isWhitespace).reverse⟩

/-- Body of the per-band metadata loop of `get_band_wavelengths`
(`src/i.hyper.rgb.py` lines 159-166): scan the metadata lines in order; on the
first line whose lowercase form contains `"wavelength"` and that splits on
`"="` into exactly two parts, parse the second part (stripped) as a float and
stop.  A parse failure raises, which the enclosing `try/except` turns into
skipping the whole band (`none`); a wavelength line with the wrong shape is
skipped and scanning continues. -/
def parseBandWavelength (pf : String → Option ℚ) : List String → Option ℚ
  | [] => none
  | line :: rest =>
    if strContains (pyLower line) "wavelength" then
      let parts := pySplit '=' line.data
      if parts.length = 2 then pf (pyStrip ⟨parts.getD 1 []⟩)
      else parseBandWavelength pf rest
    else parseBandWavelength pf rest

/-- One iteration of the band scan `for i in range(1, depths + 1)`:
record `wavelengths[wl] = i` when band `i`'s metadata yields a wavelength. -/
def scanStep (pf : String → Option ℚ) (meta : ℕ → List String)
    (acc : Catalog) (i : ℕ) : Catalog :=
  match parseBandWavelength pf (meta i) with
  | some wl => dictInsert acc wl i
  | none => acc

/-- Warning text emitted by `get_band_wavelengths` in degraded mode. -/
def fallbackWarning : String :=
  "No wavelength metadata found. Using band numbers as wavelengths."

/-- Embedding of `get_band_wavelengths` (`src/i.hyper.rgb.py` lines 145-175):
scan bands `1..depths` for wavelength metadata, building a dict
`wavelength ↦ band index`; if the scan records nothing, warn and fall back to
the synthetic catalog `{float(i): i for i in range(1, depths + 1)}`.
Returns the catalog together with the trace of warnings emitted. -/
def get_band_wavelengths (pf : String → Option ℚ) (depths : ℕ)
    (meta : ℕ → List String) : Catalog × List Cmd :=
  let wavelengths := (List.range' 1 depths).foldl (scanStep pf meta) []
  if wavelengths = [] then
    ((List.range' 1 depths).map (fun i : ℕ => ((i : ℚ), i)), [Cmd.warning fallbackWarning])
  else
    (wavelengths, [])

/-- One step of Python `min(keys, key=lambda x: abs(x - target))`: keep the
current best unless the new element is strictly closer to the target. -/
def minStep (target : ℚ) (best x : ℚ) : ℚ :=
  if |x - target| < |best - target| then x else best

/-- Python `min(keys, key=lambda x: abs(x - target))` over the key list in
dict iteration order: `none` on the empty list (Python raises `ValueError`),
else the first key attaining the minimal absolute distance. -/
def argminAbs (target : ℚ) : List ℚ → Option ℚ
  | [] => none
  | k :: ks => some (ks.foldl (minStep target) k)

/-- Embedding of `find_closest_band` (`src/i.hyper.rgb.py` lines 178-181):
`closest_wl = min(wavelengths.keys(), key=lambda x: abs(x - target))`;
return `(wavelengths[closest_wl], closest_wl)`.  `none` models the uncaught
`ValueError` on an empty catalog. -/
def find_closest_band (target_wavelength : ℚ) (wavelengths : Catalog) :
    Option (ℕ × ℚ) :=
  match argminAbs target_wavelength (wavelengths.map Prod.fst) with
  | none => none
  | some closest_wl =>
    match dictGet wavelengths closest_wl with
    | none => none
    | some band => some (band, closest_wl)

/-- Band name `f"{raster3d}#{idx}"`. -/
def band_name (raster3d : String) (idx : ℕ) : String :=
  raster3d ++ "#" ++ toString idx

/-- Result of `calculate_statistic`: either a raster-math expression string
(returned as `(expr, None)`), a delegation `(temp_maps, method)` to the
external series aggregator, or the `gs.fatal` abort. -/
inductive StatResult where
  | expr (e : String)
  | delegate (maps : List String) (method : String)
  | fatal (msg : String)
deriving DecidableEq, Repr

/-- Embedding of `calculate_statistic` (`src/i.hyper.rgb.py` lines 184-209):
`mean` builds the expression `({b1 + ... + bk}) / k`; `median`/`mode` pass
their own name, `min`/`max` map to `minimum`/`maximum`; any statistic starting
with `"sd"` is delegated verbatim; anything else is fatal. -/
def calculate_statistic (raster3d : String) (band_indices : List ℕ)
    (statistic : String) : StatResult :=
  let temp_maps := band_indices.map (band_name raster3d)
  if statistic = "mean" then
    .expr ("(" ++ String.intercalate " + " temp_maps ++ ") / " ++
      toString temp_maps.length)
  else if statistic = "median" then .delegate temp_maps "median"
  else if statistic = "mode" then .delegate temp_maps "mode"
  else if statistic = "min" then .delegate temp_maps "minimum"
  else if statistic = "max" then .delegate temp_maps "maximum"
  else if strStartsWith statistic "sd" then .delegate temp_maps statistic
  else .fatal ("Unknown statistic: " ++ statistic)

/-- Keys of the `adjustments` dict of `apply_colorblind_adjustment`
(`src/i.hyper.rgb.py` lines 214-230).  The per-channel matrices stored under
these keys are dead data in this version: the function only tests key
membership and never applies a matrix. -/
def adjustmentKeys : List String := ["protanopia", "deuteranopia", "tritanopia"]

/-- Embedding of `apply_colorblind_adjustment` (`src/i.hyper.rgb.py`
lines 212-243): an unknown type returns the channels untouched with no
output; a known type warns that post-processing is required and returns the
channels unchanged.  No store-mutating call is issued either way. -/
def apply_colorblind_adjustment (channels : List String)
    (colorblind_type : String) : List String × List Cmd :=
  if colorblind_type ∈ adjustmentKeys then
    (channels,
      [Cmd.warning ("Colorblind adjustment for " ++ colorblind_type ++
        " selected but requires post-processing")])
  else
    (channels, [])

/-- The module's option values after CLI parsing, restricted to the fields the
composite builders read.  Wavelength options are parsed with `float(...)` by
the builders; they are carried here already as `ℚ`. -/
structure Options where
  input : String
  output : String
  statistic : String
  colorblind : String
  red_wavelength : ℚ
  green_wavelength : ℚ
  blue_wavelength : ℚ
  cyan_wavelength : ℚ
  magenta_wavelength : ℚ
  yellow_wavelength : ℚ
  key_wavelength : ℚ
deriving DecidableEq, Repr

/-- Per-channel body of the materialization loops in both composite builders:
`g.copy` the resolved band to `<outputBase>_<color>`, then `r.rescale` it to
`0,255` in place when the normalize flag is set. -/
def materializeChannel (output_base input_raster : String) (normalize : Bool)
    (p : String × ℕ) : List Cmd :=
  Cmd.copy (band_name input_raster p.2) (output_base ++ "_" ++ p.1) ::
    (if normalize then [Cmd.rescale (output_base ++ "_" ++ p.1)] else [])

/-- Embedding of `create_rgb_composite` (`src/i.hyper.rgb.py` lines 246-301):
build the catalog, resolve the red/green/blue targets, materialize the three
channels in dict insertion order red, green, blue, run the colorblind stub
when the option is not `"none"`, and register the `_rgb` group.  `none`
models the uncaught `ValueError` when the catalog is empty. -/
def create_rgb_composite (o : Options) (normalize : Bool)
    (pf : String → Option ℚ) (depths : ℕ) (meta : ℕ → List String) :
    Option (List Cmd) :=
  let w := get_band_wavelengths pf depths meta
  match find_closest_band o.red_wavelength w.1,
        find_closest_band o.green_wavelength w.1,
        find_closest_band o.blue_wavelength w.1 with
  | some r, some g, some b =>
    let channels : List (String × ℕ) := [("red", r.1), ("green", g.1), ("blue", b.1)]
    let output_maps := channels.map (fun p => o.output ++ "_" ++ p.1)
    let cbCmds :=
      if o.colorblind ≠ "none" then
        (apply_colorblind_adjustment output_maps o.colorblind).2
      else []
    some (w.2 ++ (channels.map (materializeChannel o.output o.input normalize)).flatten
      ++ cbCmds ++ [Cmd.group (o.output ++ "_rgb") output_maps])
  | _, _, _ => none

/-- Embedding of `create_cmyk_composite` (`src/i.hyper.rgb.py` lines 304-362):
build the catalog, resolve the cyan/magenta/yellow/key targets, materialize
the four channels in dict insertion order cyan, magenta, yellow, key, and
register the `_cmyk` group.  This builder never reads the colorblind option.
`none` models the uncaught `ValueError` when the catalog is empty. -/
def create_cmyk_composite (o : Options) (normalize : Bool)
    (pf : String → Option ℚ) (depths : ℕ) (meta : ℕ → List String) :
    Option (List Cmd) :=
  let w := get_band_wavelengths pf depths meta
  match find_closest_band o.cyan_wavelength w.1,
        find_closest_band o.magenta_wavelength w.1,
        find_closest_band o.yellow_wavelength w.1,
        find_closest_band o.key_wavelength w.1 with
  | some c, some m, some y, some k =>
    let channels : List (String × ℕ) :=
      [("cyan", c.1), ("magenta", m.1), ("yellow", y.1), ("key", k.1)]
    let output_maps := channels.map (fun p => o.output ++ "_" ++ p.1)
    some (w.2 ++ (channels.map (materializeChannel o.output o.input normalize)).flatten
      ++ [Cmd.group (o.output ++ "_cmyk") output_maps])
  | _, _, _, _ => none

/-- Destination names of the `g.copy` events of a trace, in order: the
materialized output rasters. -/
def copyDsts (t : List Cmd) : List String :=
  t.filterMap fun c =>
    match c with
    | .copy _ dst => some dst
    | _ => none

/-- The `i.group` registrations of a trace, in order. -/
def groupRegs (t : List Cmd) : List (String × List String) :=
  t.filterMap fun c =>
    match c with
    | .group name members => some (name, members)
    | _ => none

/-- The store-mutating events of a trace (copies, rescales, group
registrations), dropping warnings. -/
def storeOps (t : List Cmd) : List Cmd :=
  t.filter fun c =>
    match c with
    | .warning _ => false
    | _ => true

/-! ### Association-list (Python dict) lemmas -/

theorem dictGet_dictInsert_self (d : Catalog) (k : ℚ) (v : ℕ) :
    dictGet (dictInsert d k v) k = some v := by
  induction d with
  | nil => simp [dictInsert, dictGet]
  | cons p rest ih =>
    by_cases h : p.1 = k
    · simp [dictInsert, dictGet, h]
    · simp [dictInsert, dictGet, h, ih]

theorem dictGet_dictInsert_ne (d : Catalog) (k : ℚ) (v : ℕ) (q : ℚ)
    (hne : q ≠ k) : dictGet (dictInsert d k v) q = dictGet d q := by
  induction d with
  | nil => simp [dictInsert, dictGet, hne.symm]
  | cons p rest ih =>
    by_cases h : p.1 = k
    · simp [dictInsert, dictGet, h, hne.symm]
    · by_cases hq : p.1 = q
      · simp [dictInsert, dictGet, h, hq, hne]
      · simp [dictInsert, dictGet, h, hq, ih]

theorem dictGet_isSome_of_mem_keys (w : Catalog) (k : ℚ)
    (hk : k ∈ w.map Prod.fst) : ∃ b, dictGet w k = some b := by
  induction w with
  | nil => simp at hk
  | cons p rest ih =>
    by_cases h : p.1 = k
    · exact ⟨p.2, by simp [dictGet, h]⟩
    · rw [List.map_cons] at hk
      rcases List.mem_cons.mp hk with hk | hk
      · exact absurd hk.symm h
      · obtain ⟨b, hb⟩ := ih hk
        exact ⟨b, by simp [dictGet, h, hb]⟩

/-! ### Python `min(keys, key=lambda x: abs(x - target))` lemmas -/

/-- The fold underlying `argminAbs` returns the first element of `b :: ks`
(in iteration order) attaining the minimal absolute distance to the target:
every earlier element is strictly farther, every later element at least as
far. -/
theorem foldl_minStep_split (t : ℚ) (ks : List ℚ) :
    ∀ b : ℚ, ∃ pre post,
      b :: ks = pre ++ (ks.foldl (minStep t) b) :: post ∧
        (∀ x ∈ pre, |ks.foldl (minStep t) b - t| < |x - t|) ∧
        (∀ x ∈ post, |ks.foldl (minStep t) b - t| ≤ |x - t|) := by
  induction ks with
  | nil =>
    intro b
    exact ⟨[], [], rfl, by simp, by simp⟩
  | cons x ks ih =>
    intro b
    rw [List.foldl_cons]
    by_cases hx : |x - t| < |b - t|
    · have hstep : minStep t b x = x := by rw [minStep, if_pos hx]
      rw [hstep]
      obtain ⟨pre, post, heq, hpre, hpost⟩ := ih x
      have hrx : |ks.foldl (minStep t) x - t| ≤ |x - t| := by
        have hxmem : x ∈ pre ++ ks.foldl (minStep t) x :: post := by
          rw [← heq]; exact List.mem_cons_self x ks
        rcases List.mem_append.mp hxmem with hm | hm
        · exact le_of_lt (hpre x hm)
        · rcases List.mem_cons.mp hm with hm | hm
          · rw [← hm]
          · exact hpost x hm
      refine ⟨b :: pre, post, ?_, ?_, hpost⟩
      · rw [List.cons_append, ← heq]
      · intro y hy
        rcases List.mem_cons.mp hy with hy | hy
        · rw [hy]; exact lt_of_le_of_lt hrx hx
        · exact hpre y hy
    · have hstep : minStep t b x = b := by rw [minStep, if_neg hx]
      rw [hstep]
      obtain ⟨pre, post, heq, hpre, hpost⟩ := ih b
      have hbx : |b - t| ≤ |x - t| := le_of_not_lt hx
      cases pre with
      | nil =>
        rw [List.nil_append] at heq
        have hb : b = ks.foldl (minStep t) b := (List.cons.injEq _ _ _ _).mp heq |>.1
        have hks : ks = post := (List.cons.injEq _ _ _ _).mp heq |>.2
        refine ⟨[], x :: post, ?_, by simp, ?_⟩
        · rw [List.nil_append, ← hb, hks]
        · intro y hy
          rcases List.mem_cons.mp hy with hy | hy
          · rw [hy, ← hb]; exact hbx
          · exact hpost y hy
      | cons p pre₂ =>
        rw [List.cons_append] at heq
        have hp : b = p := (List.cons.injEq _ _ _ _).mp heq |>.1
        have hks : ks = pre₂ ++ ks.foldl (minStep t) b :: post :=
          (List.cons.injEq _ _ _ _).mp heq |>.2
        have hbfar : |ks.foldl (minStep t) b - t| < |b - t| := by
          have := hpre p (List.mem_cons_self p pre₂)
          rwa [← hp] at this
        refine ⟨b :: x :: pre₂, post, ?_, ?_, hpost⟩
        · simp only [List.cons_append]
          rw [← hks]
        · intro y hy
          rcases List.mem_cons.mp hy with hy | hy
          · rw [hy]; exact hbfar
          · rcases List.mem_cons.mp hy with hy | hy
            · rw [hy]; exact lt_of_lt_of_le hbfar hbx
            · exact hpre y (List.mem_cons_of_mem p hy)

/-- Specification of `find_closest_band` on a non-empty catalog: it returns
`some (b, k)` where `k` splits the key list (in dict iteration order) into
strictly-farther keys before it and at-least-as-far keys after it, and `b` is
the catalog's value at `k`. -/
theorem find_closest_band_split (t : ℚ) (w : Catalog) (hw : w ≠ []) :
    ∃ b k pre post, find_closest_band t w = some (b, k) ∧
      w.map Prod.fst = pre ++ k :: post ∧
      (∀ x ∈ pre, |k - t| < |x - t|) ∧
      (∀ x ∈ post, |k - t| ≤ |x - t|) ∧
      dictGet w k = some b := by
  match w with
  | [] => exact absurd rfl hw
  | p :: w' =>
    obtain ⟨pre, post, heq, hpre, hpost⟩ :=
      foldl_minStep_split t (w'.map Prod.fst) p.1
    set k := (w'.map Prod.fst).foldl (minStep t) p.1 with hk
    have hkeys : (p :: w').map Prod.fst = pre ++ k :: post := by
      rw [List.map_cons, heq]
    have hkmem : k ∈ (p :: w').map Prod.fst := by
      rw [hkeys]
      exact List.mem_append.mpr (Or.inr (List.mem_cons_self k post))
    obtain ⟨b, hb⟩ := dictGet_isSome_of_mem_keys (p :: w') k hkmem
    refine ⟨b, k, pre, post, ?_, hkeys, hpre, hpost, hb⟩
    have hargmin : argminAbs t ((p :: w').map Prod.fst) = some k := by
      rw [List.map_cons, argminAbs]
    simp only [find_closest_band, hargmin, hb]

/-- For every non-empty catalog the closest-band lookup yields a result. -/
theorem find_closest_band_isSome (t : ℚ) (w : Catalog) (hw : w ≠ []) :
    ∃ b k, find_closest_band t w = some (b, k) := by
  obtain ⟨b, k, _, _, hfind, _⟩ := find_closest_band_split t w hw
  exact ⟨b, k, hfind⟩

/-! ### Claim theorems -/

/-- C1: for every non-empty wavelength catalog and every target wavelength,
`find_closest_band` returns a pair `(bandIndex, k)` where `k` is a key of the
catalog, `bandIndex` is the catalog's value at `k`, and no other catalog key
is strictly closer to the target. -/
theorem c1_find_closest_band_minimal (t : ℚ) (w : Catalog) (hw : w ≠ []) :
    ∃ b k, find_closest_band t w = some (b, k) ∧
      k ∈ w.map Prod.fst ∧
      dictGet w k = some b ∧
      ∀ q ∈ w.map Prod.fst, ¬(|q - t| < |k - t|) := by
  obtain ⟨b, k, pre, post, hfind, hkeys, hpre, hpost, hget⟩ :=
    find_closest_band_split t w hw
  refine ⟨b, k, hfind, ?_, hget, ?_⟩
  · rw [hkeys]
    exact List.mem_append.mpr (Or.inr (List.mem_cons_self k post))
  · intro q hq
    rw [hkeys] at hq
    rcases List.mem_append.mp hq with hm | hm
    · exact lt_asymm (hpre q hm)
    · rcases List.mem_cons.mp hm with hm | hm
      · rw [hm]; exact lt_irrefl _
      · exact not_lt_of_ge (hpost q hm)

/-- Witness for C1: the catalog `{500.0: 1, 600.0: 2}` with target `650`. -/
theorem c1_find_closest_band_minimal_witness :
    ([((500 : ℚ), 1), ((600 : ℚ), 2)] : Catalog) ≠ [] ∧
      ∃ b k, find_closest_band 650 [((500 : ℚ), 1), ((600 : ℚ), 2)] = some (b, k) ∧
        k ∈ ([((500 : ℚ), 1), ((600 : ℚ), 2)] : Catalog).map Prod.fst ∧
        dictGet [((500 : ℚ), 1), ((600 : ℚ), 2)] k = some b ∧
        ∀ q ∈ ([((500 : ℚ), 1), ((600 : ℚ), 2)] : Catalog).map Prod.fst,
          ¬(|q - 650| < |k - 650|) :=
  ⟨by simp, c1_find_closest_band_minimal 650 _ (by simp)⟩

/-- C2 counterexample: a catalog whose dict insertion order (produced by the
ascending band scan itself: band 1 carries wavelength 5, band 2 carries
wavelength 3) is key 5 before key 3.  With target 4 both keys are at distance
1, yet `find_closest_band` returns key 5 (the first minimal key in
*insertion* order), not the smallest tied key 3 band 2 as the claim
requires. -/
theorem c2_counterexample :
    (get_band_wavelengths
        (fun s => if s = "5" then some 5 else if s = "3" then some 3 else none) 2
        (fun i => if i = 1 then ["wavelength=5"] else ["wavelength=3"])).1
        = [((5 : ℚ), 1), ((3 : ℚ), 2)] ∧
      find_closest_band 4 [((5 : ℚ), 1), ((3 : ℚ), 2)] = some (1, 5) ∧
      |(3 : ℚ) - 4| = |(5 : ℚ) - 4| ∧ (3 : ℚ) < 5 := by
  refine ⟨by decide, ?_, by norm_num, by norm_num⟩
  norm_num [find_closest_band, argminAbs, minStep, dictGet]

/-- C2 (amended): on a non-empty catalog, `find_closest_band` returns the
first key attaining the minimal absolute distance in the catalog's dict
iteration order, which is insertion order — not ascending-key order.  Every
key inserted earlier is strictly farther from the target and every key
inserted later is at least as far. -/
theorem c2_first_minimal_key_in_iteration_order (t : ℚ) (w : Catalog)
    (hw : w ≠ []) :
    ∃ b k pre post, find_closest_band t w = some (b, k) ∧
      w.map Prod.fst = pre ++ k :: post ∧
      (∀ x ∈ pre, |k - t| < |x - t|) ∧
      (∀ x ∈ post, |k - t| ≤ |x - t|) ∧
      dictGet w k = some b :=
  find_closest_band_split t w hw

/-- Witness for the amended C2 at the tied catalog of the counterexample. -/
theorem c2_first_minimal_key_witness :
    ([((5 : ℚ), 1), ((3 : ℚ), 2)] : Catalog) ≠ [] ∧
      ∃ b k pre post,
        find_closest_band 4 [((5 : ℚ), 1), ((3 : ℚ), 2)] = some (b, k) ∧
        ([((5 : ℚ), 1), ((3 : ℚ), 2)] : Catalog).map Prod.fst = pre ++ k :: post ∧
        (∀ x ∈ pre, |k - 4| < |x - 4|) ∧
        (∀ x ∈ post, |k - 4| ≤ |x - 4|) ∧
        dictGet [((5 : ℚ), 1), ((3 : ℚ), 2)] k = some b :=
  ⟨by simp, c2_first_minimal_key_in_iteration_order 4 _ (by simp)⟩

/-! ### Band-scan lemmas and the catalog claims -/

theorem foldl_scanStep_of_none (pf : String → Option ℚ) (meta : ℕ → List String) :
    ∀ (l : List ℕ) (acc : Catalog),
      (∀ i ∈ l, parseBandWavelength pf (meta i) = none) →
      l.foldl (scanStep pf meta) acc = acc := by
  intro l
  induction l with
  | nil => intro acc _; rfl
  | cons i l ih =>
    intro acc h
    rw [List.foldl_cons]
    have hi : parseBandWavelength pf (meta i) = none := h i (List.mem_cons_self i l)
    have hstep : scanStep pf meta acc i = acc := by simp only [scanStep, hi]
    rw [hstep]
    exact ih acc (fun j hj => h j (List.mem_cons_of_mem i hj))

/-- C3: if the metadata scan over an N-band stack (N ≥ 1) records zero
wavelength entries, `get_band_wavelengths` emits the degraded-mode warning
and returns exactly the synthetic catalog `{1.0: 1, ..., N.0: N}`. -/
theorem c3_degraded_fallback_catalog (pf : String → Option ℚ) (depths : ℕ)
    (meta : ℕ → List String) (_hd : 1 ≤ depths)
    (hnone : ∀ i ∈ List.range' 1 depths, parseBandWavelength pf (meta i) = none) :
    get_band_wavelengths pf depths meta =
      ((List.range' 1 depths).map (fun i : ℕ => ((i : ℚ), i)),
        [Cmd.warning fallbackWarning]) := by
  have h0 : (List.range' 1 depths).foldl (scanStep pf meta) [] = [] :=
    foldl_scanStep_of_none pf meta _ [] hnone
  simp only [get_band_wavelengths, h0, if_pos]

/-- Witness for C3: a 3-band stack with empty metadata on every band. -/
theorem c3_degraded_fallback_catalog_witness :
    1 ≤ 3 ∧
      (∀ i ∈ List.range' 1 3,
        parseBandWavelength (fun _ => none) ((fun _ : ℕ => ([] : List String)) i) = none) ∧
      get_band_wavelengths (fun _ => none) 3 (fun _ : ℕ => ([] : List String)) =
        ((List.range' 1 3).map (fun i : ℕ => ((i : ℚ), i)),
          [Cmd.warning fallbackWarning]) :=
  ⟨by decide, by decide,
    c3_degraded_fallback_catalog (fun _ => none) 3 (fun _ => []) (by decide) (by decide)⟩

theorem dictGet_foldl_scanStep_ne (pf : String → Option ℚ)
    (meta : ℕ → List String) (wl : ℚ) :
    ∀ (l : List ℕ) (acc : Catalog),
      (∀ i ∈ l, parseBandWavelength pf (meta i) ≠ some wl) →
      dictGet (l.foldl (scanStep pf meta) acc) wl = dictGet acc wl := by
  intro l
  induction l with
  | nil => intro acc _; rfl
  | cons i l ih =>
    intro acc h
    rw [List.foldl_cons]
    rw [ih (scanStep pf meta acc i) (fun j hj => h j (List.mem_cons_of_mem i hj))]
    cases hparse : parseBandWavelength pf (meta i) with
    | none => simp only [scanStep, hparse]
    | some w₀ =>
      have hne : wl ≠ w₀ := by
        intro hcontra
        exact h i (List.mem_cons_self i l) (by rw [hparse, hcontra])
      simp only [scanStep, hparse]
      exact dictGet_dictInsert_ne acc w₀ i wl hne

/-- C4: when two distinct bands `i < j` both parse to the same wavelength `wl`
and no band scanned after `j` parses to `wl`, the catalog built by
`get_band_wavelengths` maps `wl` to the later-scanned band `j` (last-seen
band wins, since bands are scanned in ascending index order). -/
theorem c4_last_band_wins_on_duplicate_wavelength (pf : String → Option ℚ)
    (depths : ℕ) (meta : ℕ → List String) (wl : ℚ) (i j : ℕ)
    (_hij : i < j)
    (_hi : i ∈ List.range' 1 depths) (hj : j ∈ List.range' 1 depths)
    (_hpi : parseBandWavelength pf (meta i) = some wl)
    (hpj : parseBandWavelength pf (meta j) = some wl)
    (hlast : ∀ l ∈ List.range' 1 depths, j < l →
      parseBandWavelength pf (meta l) ≠ some wl) :
    dictGet (get_band_wavelengths pf depths meta).1 wl = some j := by
  obtain ⟨s, u, hsu⟩ := List.append_of_mem hj
  have hpw : (List.range' 1 depths).Pairwise (· < ·) := List.pairwise_lt_range' 1 depths
  have hafter : ∀ x ∈ u, j < x := by
    rw [hsu] at hpw
    exact (List.pairwise_cons.mp (List.pairwise_append.mp hpw).2.1).1
  have humem : ∀ x ∈ u, x ∈ List.range' 1 depths := by
    intro x hx
    rw [hsu]
    exact List.mem_append.mpr (Or.inr (List.mem_cons_of_mem j hx))
  have hW : dictGet ((List.range' 1 depths).foldl (scanStep pf meta) []) wl = some j := by
    rw [hsu, List.foldl_append, List.foldl_cons]
    rw [dictGet_foldl_scanStep_ne pf meta wl u _
      (fun x hx => hlast x (humem x hx) (hafter x hx))]
    simp only [scanStep, hpj]
    exact dictGet_dictInsert_self _ wl j
  have hne : (List.range' 1 depths).foldl (scanStep pf meta) [] ≠ [] := by
    intro hnil
    rw [hnil] at hW
    simp [dictGet] at hW
  have hgbw : get_band_wavelengths pf depths meta =
      ((List.range' 1 depths).foldl (scanStep pf meta) [], []) := by
    simp only [get_band_wavelengths]
    rw [if_neg hne]
  rw [hgbw]
  exact hW

/-- Witness for C4: bands 1 and 2 both carry the metadata line
`wavelength=7`; the catalog maps 7.0 to band 2. -/
theorem c4_last_band_wins_witness :
    (1 : ℕ) < 2 ∧
      parseBandWavelength (fun s => if s = "7" then some 7 else none)
        ((fun _ : ℕ => ["wavelength=7"]) 1) = some 7 ∧
      dictGet (get_band_wavelengths (fun s => if s = "7" then some 7 else none) 2
        (fun _ : ℕ => ["wavelength=7"])).1 7 = some 2 :=
  ⟨by decide, by decide,
    c4_last_band_wins_on_duplicate_wavelength
      (fun s => if s = "7" then some 7 else none) 2
      (fun _ : ℕ => ["wavelength=7"]) 7 1 2
      (by decide) (by decide) (by decide) (by decide) (by decide) (by decide)⟩

/-! ### Statistic-plan claims -/

/-- C5: for every band list, `calculate_statistic` with statistic `"mean"`
returns the pixel-wise expression joining the band names with a plus sign
inside parentheses, divided by the band count — and no delegation method
(the `expr` result models the Python return `(expr, None)`). -/
theorem c5_mean_expression (raster3d : String) (band_indices : List ℕ) :
    calculate_statistic raster3d band_indices "mean" =
      .expr ("(" ++ String.intercalate " + " (band_indices.map (band_name raster3d))
        ++ ") / " ++ toString band_indices.length) := by
  simp [calculate_statistic]

/-- C6 counterexample: the statistic `"sdfoo"` is outside the module's
enumerated statistic set, yet `calculate_statistic` does not fail — it
returns a delegation plan, because the `"sd"` prefix branch is tested before
the fatal branch. -/
theorem c6_counterexample :
    ("sdfoo" ∈ ["mean", "median", "mode", "min", "max", "sd1_pos", "sd2_pos",
        "sd3_pos", "sd1_neg", "sd2_neg", "sd3_neg"]) = False ∧
      calculate_statistic "hyp" [1] "sdfoo" =
        .delegate ["hyp#1"] "sdfoo" := by
  refine ⟨by simp, by decide⟩

/-- C6 (amended): for every statistic that is none of `mean`, `median`,
`mode`, `min`, `max` and does not start with `"sd"`, `calculate_statistic`
fails with the unknown-statistic fatal error.  (Strings outside the
enumerated set that do start with `"sd"`, such as `"sdfoo"`, are instead
delegated verbatim.) -/
theorem c6_unknown_statistic_fatal (raster3d : String) (band_indices : List ℕ)
    (statistic : String)
    (hmem : statistic ∉ ["mean", "median", "mode", "min", "max"])
    (hsd : strStartsWith statistic "sd" = false) :
    calculate_statistic raster3d band_indices statistic =
      .fatal ("Unknown statistic: " ++ statistic) := by
  simp only [List.mem_cons, List.mem_singleton, not_or] at hmem
  obtain ⟨h1, h2, h3, h4, h5⟩ := hmem
  simp only [calculate_statistic, h1, h2, h3, h4, h5, hsd,
    if_false, Bool.false_eq_true, ite_false]

/-- Witness for the amended C6 at the statistic `"foo"`. -/
theorem c6_unknown_statistic_fatal_witness :
    ("foo" ∉ ["mean", "median", "mode", "min", "max"]) ∧
      strStartsWith "foo" "sd" = false ∧
      calculate_statistic "hyp" [1] "foo" = .fatal ("Unknown statistic: " ++ "foo") :=
  ⟨by decide, by decide,
    c6_unknown_statistic_fatal "hyp" [1] "foo" (by decide) (by decide)⟩

/-- C10: any statistic starting with `"sd"` — including strings outside the
enumerated set such as `"sdfoo"` — is returned as a delegation carrying the
band list and the statistic name verbatim; the fatal branch is unreachable
for such inputs. -/
theorem c10_sd_statistic_delegated_verbatim (raster3d : String)
    (band_indices : List ℕ) (statistic : String)
    (hsd : strStartsWith statistic "sd" = true) :
    calculate_statistic raster3d band_indices statistic =
      .delegate (band_indices.map (band_name raster3d)) statistic := by
  have h1 : statistic ≠ "mean" := by rintro rfl; exact absurd hsd (by decide)
  have h2 : statistic ≠ "median" := by rintro rfl; exact absurd hsd (by decide)
  have h3 : statistic ≠ "mode" := by rintro rfl; exact absurd hsd (by decide)
  have h4 : statistic ≠ "min" := by rintro rfl; exact absurd hsd (by decide)
  have h5 : statistic ≠ "max" := by rintro rfl; exact absurd hsd (by decide)
  simp [calculate_statistic, h1, h2, h3, h4, h5, hsd]

/-- Witness for C10 at the statistic `"sdfoo"`. -/
theorem c10_sd_statistic_delegated_witness :
    strStartsWith "sdfoo" "sd" = true ∧
      calculate_statistic "hyp" [1] "sdfoo" =
        .delegate ([1].map (band_name "hyp")) "sdfoo" :=
  ⟨by decide, c10_sd_statistic_delegated_verbatim "hyp" [1] "sdfoo" (by decide)⟩

/-- C7: end-to-end degenerate scenario.  A 10-band stack with no wavelength
metadata: the catalog is exactly `{1.0: 1, ..., 10.0: 10}` with the
degraded-mode warning, and band selection for targets 650 (red), 550 (green)
and 450 (blue) returns band 10 with achieved wavelength 10 for all three
channels. -/
theorem c7_ten_band_degraded_scenario :
    get_band_wavelengths (fun _ => none) 10 (fun _ : ℕ => ([] : List String)) =
      ([(1, 1), (2, 2), (3, 3), (4, 4), (5, 5), (6, 6), (7, 7), (8, 8), (9, 9),
        (10, 10)], [Cmd.warning fallbackWarning]) ∧
      find_closest_band 650 [(1, 1), (2, 2), (3, 3), (4, 4), (5, 5), (6, 6),
        (7, 7), (8, 8), (9, 9), (10, 10)] = some (10, 10) ∧
      find_closest_band 550 [(1, 1), (2, 2), (3, 3), (4, 4), (5, 5), (6, 6),
        (7, 7), (8, 8), (9, 9), (10, 10)] = some (10, 10) ∧
      find_closest_band 450 [(1, 1), (2, 2), (3, 3), (4, 4), (5, 5), (6, 6),
        (7, 7), (8, 8), (9, 9), (10, 10)] = some (10, 10) := by
  refine ⟨by decide, ?_, ?_, ?_⟩ <;>
    norm_num [find_closest_band, argminAbs, minStep, dictGet]

/-! ### Composite-assembly lemmas and claims -/

theorem string_append_fuse (s a b c : String) (h : a ++ b = c) :
    s ++ a ++ b = s ++ c := by
  rw [String.append_assoc, h]

theorem append_cyan (s : String) : s ++ "_" ++ "cyan" = s ++ "_cyan" :=
  string_append_fuse s "_" "cyan" "_cyan" rfl

theorem append_magenta (s : String) : s ++ "_" ++ "magenta" = s ++ "_magenta" :=
  string_append_fuse s "_" "magenta" "_magenta" rfl

theorem append_yellow (s : String) : s ++ "_" ++ "yellow" = s ++ "_yellow" :=
  string_append_fuse s "_" "yellow" "_yellow" rfl

theorem append_key (s : String) : s ++ "_" ++ "key" = s ++ "_key" :=
  string_append_fuse s "_" "key" "_key" rfl

theorem append_red (s : String) : s ++ "_" ++ "red" = s ++ "_red" :=
  string_append_fuse s "_" "red" "_red" rfl

theorem append_green (s : String) : s ++ "_" ++ "green" = s ++ "_green" :=
  string_append_fuse s "_" "green" "_green" rfl

theorem append_blue (s : String) : s ++ "_" ++ "blue" = s ++ "_blue" :=
  string_append_fuse s "_" "blue" "_blue" rfl

theorem get_band_wavelengths_fst_ne_nil (pf : String → Option ℚ) (depths : ℕ)
    (meta : ℕ → List String) (hd : 1 ≤ depths) :
    (get_band_wavelengths pf depths meta).1 ≠ [] := by
  simp only [get_band_wavelengths]
  by_cases h : (List.range' 1 depths).foldl (scanStep pf meta) [] = []
  · rw [if_pos h]
    intro hc
    simp only [List.map_eq_nil_iff] at hc
    have := List.range'_eq_nil.mp hc
    omega
  · rw [if_neg h]
    exact h

theorem get_band_wavelengths_snd_cases (pf : String → Option ℚ) (depths : ℕ)
    (meta : ℕ → List String) :
    (get_band_wavelengths pf depths meta).2 = [Cmd.warning fallbackWarning] ∨
      (get_band_wavelengths pf depths meta).2 = [] := by
  simp only [get_band_wavelengths]
  by_cases h : (List.range' 1 depths).foldl (scanStep pf meta) [] = []
  · rw [if_pos h]; left; rfl
  · rw [if_neg h]; right; rfl

/-- C8: every CMYK assembly over a stack with at least one band materializes
exactly the four rasters `<base>_cyan`, `<base>_magenta`, `<base>_yellow`,
`<base>_key` (in request order) and registers the single group
`<base>_cmyk` containing exactly those four raster names in that order. -/
theorem c8_cmyk_group_registration (o : Options) (normalize : Bool)
    (pf : String → Option ℚ) (depths : ℕ) (meta : ℕ → List String)
    (hd : 1 ≤ depths) :
    ∃ t, create_cmyk_composite o normalize pf depths meta = some t ∧
      copyDsts t = [o.output ++ "_cyan", o.output ++ "_magenta",
        o.output ++ "_yellow", o.output ++ "_key"] ∧
      groupRegs t = [(o.output ++ "_cmyk",
        [o.output ++ "_cyan", o.output ++ "_magenta",
          o.output ++ "_yellow", o.output ++ "_key"])] := by
  have hW := get_band_wavelengths_fst_ne_nil pf depths meta hd
  obtain ⟨cb, ck, hc⟩ := find_closest_band_isSome o.cyan_wavelength _ hW
  obtain ⟨mb, mk, hm⟩ := find_closest_band_isSome o.magenta_wavelength _ hW
  obtain ⟨yb, yk, hy⟩ := find_closest_band_isSome o.yellow_wavelength _ hW
  obtain ⟨kb, kk, hk⟩ := find_closest_band_isSome o.key_wavelength _ hW
  refine ⟨(get_band_wavelengths pf depths meta).2 ++
      ([("cyan", cb), ("magenta", mb), ("yellow", yb), ("key", kb)].map
        (materializeChannel o.output o.input normalize)).flatten ++
      [Cmd.group (o.output ++ "_cmyk")
        ([(("cyan" : String), cb), ("magenta", mb), ("yellow", yb), ("key", kb)].map
          (fun p => o.output ++ "_" ++ p.1))], ?_, ?_, ?_⟩
  · simp only [create_cmyk_composite, hc, hm, hy, hk]
  · rcases get_band_wavelengths_snd_cases pf depths meta with h2 | h2 <;>
      cases normalize <;>
        simp [h2, copyDsts, materializeChannel, List.filterMap_append,
          append_cyan, append_magenta, append_yellow, append_key]
  · rcases get_band_wavelengths_snd_cases pf depths meta with h2 | h2 <;>
      cases normalize <;>
        simp [h2, groupRegs, materializeChannel, List.filterMap_append,
          append_cyan, append_magenta, append_yellow, append_key]

/-- Witness for C8: a one-band stack without metadata, normalize off. -/
theorem c8_cmyk_group_registration_witness :
    1 ≤ 1 ∧
      ∃ t, create_cmyk_composite
          (Options.mk "in" "out" "mean" "none" 650 550 450 490 580 570 800) false
          (fun _ => none) 1 (fun _ : ℕ => ([] : List String)) = some t ∧
        copyDsts t = ["out" ++ "_cyan", "out" ++ "_magenta",
          "out" ++ "_yellow", "out" ++ "_key"] ∧
        groupRegs t = [("out" ++ "_cmyk",
          ["out" ++ "_cyan", "out" ++ "_magenta", "out" ++ "_yellow",
            "out" ++ "_key"])] :=
  ⟨le_refl 1,
    c8_cmyk_group_registration
      (Options.mk "in" "out" "mean" "none" 650 550 450 490 580 570 800) false
      (fun _ => none) 1 (fun _ : ℕ => ([] : List String)) (le_refl 1)⟩

/-- C9 counterexample: a CMYK assembly requested with the colorblind mode
`"protanopia"` (not `"none"`).  `create_cmyk_composite` never reads the
colorblind option, so its trace contains no colorblind post-processing
warning at all — contradicting the claim that every such assembly emits
one. -/
theorem c9_counterexample :
    (Options.mk "in" "out" "mean" "protanopia" 650 550 450 490 580 570
        800).colorblind = "protanopia" ∧
      create_cmyk_composite
          (Options.mk "in" "out" "mean" "protanopia" 650 550 450 490 580 570 800)
          false (fun _ => none) 1 (fun _ : ℕ => ([] : List String)) =
        some [Cmd.warning fallbackWarning, Cmd.copy "in#1" "out_cyan",
          Cmd.copy "in#1" "out_magenta", Cmd.copy "in#1" "out_yellow",
          Cmd.copy "in#1" "out_key",
          Cmd.group "out_cmyk" ["out_cyan", "out_magenta", "out_yellow",
            "out_key"]] ∧
      Cmd.warning
          "Colorblind adjustment for protanopia selected but requires post-processing" ∉
        [Cmd.warning fallbackWarning, Cmd.copy "in#1" "out_cyan",
          Cmd.copy "in#1" "out_magenta", Cmd.copy "in#1" "out_yellow",
          Cmd.copy "in#1" "out_key",
          Cmd.group "out_cmyk" ["out_cyan", "out_magenta", "out_yellow",
            "out_key"]] := by
  refine ⟨rfl, ?_, by decide⟩
  norm_num [create_cmyk_composite, get_band_wavelengths, scanStep,
    parseBandWavelength, find_closest_band, argminAbs, minStep, dictGet,
    materializeChannel, band_name, List.range']
  decide

/-- C9 (amended): for every RGB assembly whose colorblind mode is one of the
three recognized non-none modes, the colorblind stub returns any channel
collection unchanged, emitting only the post-processing warning and no
store-mutating call, and the assembly's trace contains that warning while
the materialized channels remain exactly `<base>_red`, `<base>_green`,
`<base>_blue`.  (CMYK assemblies never invoke the colorblind step.) -/
theorem c9_rgb_colorblind_stub (o : Options) (normalize : Bool)
    (pf : String → Option ℚ) (depths : ℕ) (meta : ℕ → List String)
    (hcb : o.colorblind ∈ adjustmentKeys) (hd : 1 ≤ depths) :
    (∀ channels, apply_colorblind_adjustment channels o.colorblind =
      (channels, [Cmd.warning ("Colorblind adjustment for " ++ o.colorblind ++
        " selected but requires post-processing")])) ∧
    ∃ t, create_rgb_composite o normalize pf depths meta = some t ∧
      Cmd.warning ("Colorblind adjustment for " ++ o.colorblind ++
        " selected but requires post-processing") ∈ t ∧
      copyDsts t = [o.output ++ "_red", o.output ++ "_green",
        o.output ++ "_blue"] := by
  have happly : ∀ channels, apply_colorblind_adjustment channels o.colorblind =
      (channels, [Cmd.warning ("Colorblind adjustment for " ++ o.colorblind ++
        " selected but requires post-processing")]) := by
    intro channels
    simp [apply_colorblind_adjustment, hcb]
  have hnone : o.colorblind ≠ "none" := by
    simp only [adjustmentKeys, List.mem_cons, List.mem_singleton,
      List.not_mem_nil, or_false] at hcb
    rcases hcb with h | h | h <;> rw [h] <;> decide
  refine ⟨happly, ?_⟩
  have hW := get_band_wavelengths_fst_ne_nil pf depths meta hd
  obtain ⟨rb, rk, hr⟩ := find_closest_band_isSome o.red_wavelength _ hW
  obtain ⟨gb, gk, hg⟩ := find_closest_band_isSome o.green_wavelength _ hW
  obtain ⟨bb, bk, hb⟩ := find_closest_band_isSome o.blue_wavelength _ hW
  refine ⟨(get_band_wavelengths pf depths meta).2 ++
      ([("red", rb), ("green", gb), ("blue", bb)].map
        (materializeChannel o.output o.input normalize)).flatten ++
      [Cmd.warning ("Colorblind adjustment for " ++ o.colorblind ++
        " selected but requires post-processing")] ++
      [Cmd.group (o.output ++ "_rgb")
        ([(("red" : String), rb), ("green", gb), ("blue", bb)].map
          (fun p => o.output ++ "_" ++ p.1))], ?_, ?_, ?_⟩
  · simp only [create_rgb_composite, hr, hg, hb, if_pos hnone, ne_eq,
      not_false_iff, happly]
  · simp
  · rcases get_band_wavelengths_snd_cases pf depths meta with h2 | h2 <;>
      cases normalize <;>
        simp [h2, copyDsts, materializeChannel, List.filterMap_append,
          append_red, append_green, append_blue]

/-- Witness for the amended C9: a two-band metadata-free stack assembled with
the `"deuteranopia"` mode and normalization on. -/
theorem c9_rgb_colorblind_stub_witness :
    (Options.mk "in" "out" "mean" "deuteranopia" 650 550 450 490 580 570
        800).colorblind ∈ adjustmentKeys ∧ 1 ≤ 2 ∧
      ((∀ channels, apply_colorblind_adjustment channels
          (Options.mk "in" "out" "mean" "deuteranopia" 650 550 450 490 580 570
            800).colorblind =
        (channels, [Cmd.warning ("Colorblind adjustment for " ++
          (Options.mk "in" "out" "mean" "deuteranopia" 650 550 450 490 580 570
            800).colorblind ++ " selected but requires post-processing")])) ∧
      ∃ t, create_rgb_composite
          (Options.mk "in" "out" "mean" "deuteranopia" 650 550 450 490 580 570
            800) true (fun _ => none) 2 (fun _ : ℕ => ([] : List String)) =
          some t ∧
        Cmd.warning ("Colorblind adjustment for " ++
          (Options.mk "in" "out" "mean" "deuteranopia" 650 550 450 490 580 570
            800).colorblind ++ " selected but requires post-processing") ∈ t ∧
        copyDsts t = ["out" ++ "_red", "out" ++ "_green", "out" ++ "_blue"]) :=
  ⟨by decide, by decide,
    c9_rgb_colorblind_stub
      (Options.mk "in" "out" "mean" "deuteranopia" 650 550 450 490 580 570 800)
      true (fun _ => none) 2 (fun _ : ℕ => ([] : List String))
      (by decide) (by decide)⟩

end IHyperRgb
